import Mathlib

namespace EasyLLM

/-!
Verification of the easyllm client core (src/client.ts) against its
natural-language specification.

The TypeScript code is shallowly embedded: byte segments and decoded text are
modelled as `List Char` (the code's `TextDecoder` with `stream: true` decodes
split multi-byte sequences transparently, so character lists are the right
abstraction level), JSON parsing of a frame payload (the external `JSON.parse`
collaborator) is an abstract `List Char → Option α` parameter, and the
stateful streaming generator becomes an explicit state machine.
-/

/-! ## SSE stream decoder (client.ts, streamChatCompletion, lines 122-162)

`splitBuf l` models the pair produced by

    const lines = buffer.split('\n');
    buffer = lines.pop() || '';

applied to `l`: the first component is the list of complete lines (all split
pieces except the trailing one) and the second component is the retained
carry-over remainder (the trailing piece, which contains no newline). -/
def splitBuf : List Char → List (List Char) × List Char
  | [] => ([], [])
  | c :: cs =>
    if c = '\n' then ([] :: (splitBuf cs).1, (splitBuf cs).2)
    else
      match (splitBuf cs).1 with
      | [] => ([], c :: (splitBuf cs).2)
      | l :: ls' => ((c :: l) :: ls', (splitBuf cs).2)

/-! ### Decoder state and per-line processing

`DecCore` collects the observable outcome of one streaming decode run:
`chunks` is the list of values yielded so far (each was also passed to the
`onProgress` callback at the moment it was yielded), `warnings` the number of
`console.warn` signals for malformed frames, `completions` the number of
`onComplete` callback invocations, and `finished` records whether the
`data: [DONE]` sentinel terminated the run.  `DecState` pairs it with the
carry-over text buffer of the read loop. -/
structure DecCore (α : Type) where
  chunks : List α
  warnings : Nat
  completions : Nat
  finished : Bool
deriving DecidableEq

structure DecState (α : Type) where
  buffer : List Char
  core : DecCore α
deriving DecidableEq

/-- The characters of the literal line prefix `"data: "`. -/
def dataMark : List Char := ['d', 'a', 't', 'a', ':', ' ']

/-- The characters of the literal sentinel line `"data: [DONE]"`. -/
def doneMark : List Char := ['d', 'a', 't', 'a', ':', ' ', '[', 'D', 'O', 'N', 'E', ']']

/-- Model of line.trim(): strip leading and trailing whitespace. -/
def trimChars (l : List Char) : List Char :=
  ((l.dropWhile Char.isWhitespace).reverse.dropWhile Char.isWhitespace).reverse

/-- One iteration of `for (const line of lines) { ... }` (client.ts lines
139-158).  After the sentinel line the generator `return`s, so a finished
core absorbs every further line.  Note that no branch reads or writes the
carry-over buffer: the loop body only trims, matches and parses the line. -/
def lineStep {α : Type} (parse : List Char → Option α) (core : DecCore α)
    (line : List Char) : DecCore α :=
  if core.finished then core
  else
    let t := trimChars line
    if t = [] then core
    else if t = doneMark then
      { core with completions := core.completions + 1, finished := true }
    else if ¬ dataMark.isPrefixOf t then core
    else
      match parse (t.drop 6) with
      | some c => { core with chunks := core.chunks ++ [c] }
      | none => { core with warnings := core.warnings + 1 }

def foldLines {α : Type} (parse : List Char → Option α) (core : DecCore α)
    (ls : List (List Char)) : DecCore α :=
  ls.foldl (lineStep parse) core

/-- One iteration of the `while (true)` read loop for a delivered segment
(client.ts lines 135-158): append the decoded segment to the buffer, pop the
retained remainder into the buffer, then process the complete lines. -/
def feedSegment {α : Type} (parse : List Char → Option α) (st : DecState α)
    (seg : List Char) : DecState α :=
  if st.core.finished then st
  else
    { buffer := (splitBuf (st.buffer ++ seg)).2,
      core := foldLines parse st.core (splitBuf (st.buffer ++ seg)).1 }

def feedAll {α : Type} (parse : List Char → Option α) (st : DecState α)
    (segs : List (List Char)) : DecState α :=
  segs.foldl (feedSegment parse) st

def initState {α : Type} : DecState α :=
  { buffer := [], core := { chunks := [], warnings := 0, completions := 0, finished := false } }

/-- A complete decode run: deliver the segments in order; when the underlying
stream reports `done` without the sentinel having been seen, fire the
completion callback once and stop (client.ts lines 130-133).  The result is
the observable outcome of the run. -/
def runDecoder {α : Type} (parse : List Char → Option α)
    (segs : List (List Char)) : DecCore α :=
  if (feedAll parse initState segs).core.finished then (feedAll parse initState segs).core
  else { (feedAll parse initState segs).core with
          completions := (feedAll parse initState segs).core.completions + 1 }

/-! ### Basic state-machine lemmas -/

/-! ### Segmentation invariance

After the sentinel line the generator has returned and the carry-over buffer
is dead state (it is discarded unprocessed), so two runs are observationally
equal when their cores agree and, if the run is still live, their buffers
agree too. -/
def ObsEq {α : Type} (s t : DecState α) : Prop :=
  s.core = t.core ∧ (s.core.finished = false → s.buffer = t.buffer)


/-! ### Well-formed SSE streams -/

/-- Concatenate newline-terminated lines. -/
def unlines (ls : List (List Char)) : List Char :=
  (ls.map (fun l => l ++ ['\n'])).flatten

/-- A well-formed `data: {...}` frame body: single-line, no surrounding
whitespace (a JSON object starts with `{` and ends with `}`), distinct from
the sentinel payload, and accepted by the JSON parser with value `c`. -/
def GoodFrame {α : Type} (parse : List Char → Option α) (p : List Char) (c : α) : Prop :=
  '\n' ∉ p ∧ trimChars (dataMark ++ p) = dataMark ++ p ∧
    dataMark ++ p ≠ doneMark ∧ parse p = some c

/-- A malformed frame body: shaped like a frame but rejected by the parser. -/
def BadFrame {α : Type} (parse : List Char → Option α) (q : List Char) : Prop :=
  '\n' ∉ q ∧ trimChars (dataMark ++ q) = dataMark ++ q ∧
    dataMark ++ q ≠ doneMark ∧ parse q = none

/-- The byte stream consisting of the frames `ps` followed by the sentinel,
each as a newline-terminated `data: ` line. -/
def streamOf (ps : List (List Char)) : List Char :=
  unlines (ps.map (fun p => dataMark ++ p) ++ [doneMark])

/-- Like `streamOf`, with one malformed frame `q` between the two groups. -/
def streamWithBad (ps₁ : List (List Char)) (q : List Char)
    (ps₂ : List (List Char)) : List Char :=
  unlines (ps₁.map (fun p => dataMark ++ p) ++ [dataMark ++ q] ++
    ps₂.map (fun p => dataMark ++ p) ++ [doneMark])

/-! ### Streaming entry wrapper (client.ts lines 97-167)

The part of `streamChatCompletion` around the decode loop: the `fetch`
response is modelled by its observable fields, the `onError` callback by a
log of the string messages it received, and the thrown/rejected error of the
async generator by the `Except.error` result.  The outer `try/catch` reports
any thrown error to `onError` once more and rethrows it. -/
structure FetchResponse where
  ok : Bool
  status : Nat
  bodyText : String
  body : Option (List (List Char))
deriving DecidableEq

def httpErrorMsg (status : Nat) (bodyText : String) : String :=
  "HTTP " ++ toString status ++ ": " ++ bodyText

def noBodyMsg : String := "No response body for streaming"

/-- The body of the outer `try` block: the two pre-loop error checks (each
reports to `onError` and throws) and, on success, the decode loop. -/
def streamBody {α : Type} (parse : List Char → Option α)
    (resp : FetchResponse) : Except String (DecCore α) × List String :=
  if ¬ resp.ok then
    (Except.error (httpErrorMsg resp.status resp.bodyText),
      [httpErrorMsg resp.status resp.bodyText])
  else
    match resp.body with
    | none => (Except.error noBodyMsg, [noBodyMsg])
    | some segs => (Except.ok (runDecoder parse segs), [])

/-- The whole streaming call: outer `catch` appends one more `onError` report
for a thrown error and rethrows it to the consumer. -/
def streamRun {α : Type} (parse : List Char → Option α)
    (resp : FetchResponse) : Except String (DecCore α) × List String :=
  match streamBody parse resp with
  | (Except.ok core, errs) => (Except.ok core, errs)
  | (Except.error e, errs) => (Except.error e, errs ++ [e])

/-! ### Completion-count invariant -/

/-- In every reachable decoder state the completion callback has fired exactly
once if the sentinel has been seen and never otherwise. -/
def CompInv {α : Type} (core : DecCore α) : Prop :=
  core.completions = (if core.finished then 1 else 0)

/-! ### Claim theorems for the decoder -/

/-! ## Non-streaming executor: response interceptor and retry
(client.ts lines 51-74)

The underlying transport is a function from the invocation index (how many
requests have been sent so far) to the outcome of that request.  `runClient`
interprets the interplay of the axios response interceptor

    if (error.response?.status >= 500 && this.config.maxRetries! > 0)
      return this.retryRequest(error.config);
    throw error;

with `retryRequest` (wait `2^retryCount` seconds, re-issue the request
through the same intercepted client, catch any rejection and recurse with
`retryCount + 1`, throw `'Max retries exceeded'` once `retryCount`
reaches `maxRetries`).  Because the re-issued request goes through the same
interceptor, the two functions are mutually recursive; the interpreter uses
explicit fuel, and `fuelExhausted` marks a run that did not terminate within
the given fuel.  `calls` counts transport invocations and `delays` logs the
seconds waited before each retry attempt, in order. -/
inductive TransportResult where
  | ok (body : String)
  | httpErr (status : Nat) (body : String)
  | netErr (msg : String)
deriving DecidableEq

inductive RequestOutcome where
  | success (body : String)
  | httpFailure (status : Nat) (body : String)
  | netFailure (msg : String)
  | maxRetriesExceeded
  | fuelExhausted
deriving DecidableEq

structure RunResult where
  outcome : RequestOutcome
  calls : Nat
  delays : List Nat
deriving DecidableEq

inductive RetryMode where
  | request
  | retrying (retryCount : Nat)
deriving DecidableEq

def runClient (transport : Nat → TransportResult) (maxRetries : Nat) :
    Nat → RetryMode → Nat → List Nat → RunResult
  | 0, _, calls, delays => ⟨RequestOutcome.fuelExhausted, calls, delays⟩
  | fuel + 1, RetryMode.request, calls, delays =>
    match transport calls with
    | TransportResult.ok body => ⟨RequestOutcome.success body, calls + 1, delays⟩
    | TransportResult.httpErr status body =>
      if 500 ≤ status ∧ 0 < maxRetries then
        runClient transport maxRetries fuel (RetryMode.retrying 0) (calls + 1) delays
      else ⟨RequestOutcome.httpFailure status body, calls + 1, delays⟩
    | TransportResult.netErr msg => ⟨RequestOutcome.netFailure msg, calls + 1, delays⟩
  | fuel + 1, RetryMode.retrying rc, calls, delays =>
    if maxRetries ≤ rc then ⟨RequestOutcome.maxRetriesExceeded, calls, delays⟩
    else
      match runClient transport maxRetries fuel RetryMode.request calls (delays ++ [2 ^ rc]) with
      | ⟨RequestOutcome.success body, c, d⟩ => ⟨RequestOutcome.success body, c, d⟩
      | ⟨RequestOutcome.fuelExhausted, c, d⟩ => ⟨RequestOutcome.fuelExhausted, c, d⟩
      | ⟨_, c, d⟩ => runClient transport maxRetries fuel (RetryMode.retrying (rc + 1)) c d

/-- A transport that fails with HTTP 500 on every attempt. -/
def alwaysServerError : Nat → TransportResult :=
  fun _ => TransportResult.httpErr 500 "Internal Server Error"

/-- A transport that fails with HTTP 500 on the first three attempts and
succeeds from the fourth on. -/
def serverErrorsThenOk : Nat → TransportResult :=
  fun n => if n < 3 then TransportResult.httpErr 500 "Internal Server Error"
           else TransportResult.ok "ok"

/-- A transport that fails with HTTP 500 on the first attempt and with
HTTP 404 on every later attempt. -/
def serverErrorThenNotFound : Nat → TransportResult :=
  fun n => if n = 0 then TransportResult.httpErr 500 "Internal Server Error"
           else TransportResult.httpErr 404 "not found"

/-! ## Requests, configuration and the convenience façade (client.ts, types.ts) -/

structure ChatMsg where
  role : String
  content : Option String
  fileName : Option String
deriving DecidableEq

/-- The fields of a `ChatCompletionRequest` that the modelled operations
inspect; `none` models an absent (`undefined`) optional field. -/
structure ChatReq where
  model : String
  messages : List ChatMsg
  stream : Option Bool
  webSearch : Option Bool
deriving DecidableEq

/-- Model of createChatCompletion (client.ts lines 76-82): the pre-flight contract
check followed by one transport invocation.  The result pairs the returned
or thrown value with the number of transport invocations performed.
`if (request.stream)` is a JS truthiness test: only `stream: true` is
truthy. -/
def createChatCompletion (transport : ChatReq → TransportResult) (req : ChatReq) :
    Except String TransportResult × Nat :=
  if req.stream = some true then
    (Except.error "Use createChatCompletionStream() for streaming requests", 0)
  else (Except.ok (transport req), 1)

structure WebSearchOptions where
  enabled : Option Bool
  maxResults : Option Nat
  includeContent : Option Bool
deriving DecidableEq

structure EasyLLMConfig where
  apiKey : String
  baseURL : Option String
  provider : Option String
  timeout : Option Nat
  maxRetries : Option Nat
  webSearch : Option WebSearchOptions
deriving DecidableEq

structure ResolvedConfig where
  apiKey : String
  baseURL : String
  provider : String
  timeout : Nat
  maxRetries : Nat
  webSearchEnabled : Bool
  webSearchMaxResults : Nat
  webSearchIncludeContent : Bool
deriving DecidableEq

/-- The constructor's configuration merge (client.ts lines 23-40): object
spread of hardcoded defaults under the caller's fields (a present caller
field wins), a nested spread for `webSearch`, then the provider-implied
base-URL override applied to the merged provider. -/
def resolveConfig (c : EasyLLMConfig) : ResolvedConfig :=
  let merged : ResolvedConfig :=
    { apiKey := c.apiKey
      baseURL := c.baseURL.getD "https://api.llm.vin/v1"
      provider := c.provider.getD "llm.vin"
      timeout := c.timeout.getD 30000
      maxRetries := c.maxRetries.getD 3
      webSearchEnabled := (c.webSearch.bind WebSearchOptions.enabled).getD false
      webSearchMaxResults := (c.webSearch.bind WebSearchOptions.maxResults).getD 5
      webSearchIncludeContent := (c.webSearch.bind WebSearchOptions.includeContent).getD true }
  if merged.provider = "openai" then { merged with baseURL := "https://api.openai.com/v1" }
  else merged

/-- Model of enhanceRequestWithWebSearch (client.ts lines 208-223): an explicitly
set request-level `webSearch` (true *or* false, i.e. `!== undefined`) is
passed through unchanged; otherwise the enabled global toggle injects
`webSearch: true`; otherwise the request is unchanged. -/
def enhanceRequestWithWebSearch (cfg : ResolvedConfig) (req : ChatReq) : ChatReq :=
  if req.webSearch ≠ none then req
  else if cfg.webSearchEnabled then { req with webSearch := some true }
  else req

/-! ### File messages (client.ts lines 249-296) -/

structure FileMessage where
  fileName : String
  content : String
deriving DecidableEq

structure FileUploadOptions where
  maxFileSize : Option Nat
  allowedExtensions : Option (List String)
deriving DecidableEq

/-- Model of fileName.split with a dot separator: split on every dot, keeping empty pieces
(`"a."` gives `["a", ""]`, `"noext"` gives `["noext"]`). -/
def splitDots : List Char → List (List Char)
  | [] => [[]]
  | c :: cs =>
    match splitDots cs with
    | [] => [[]]
    | p :: ps => if c = '.' then [] :: p :: ps else (c :: p) :: ps

/-- Model of the extension computation, the split's last piece lower-cased (lower-casing maps
`Char.toLower` over the characters, which is what `toLowerCase` does on
ASCII names). -/
def extOf (fileName : String) : String :=
  String.mk (((splitDots fileName.data).getLastD []).map Char.toLower)

/-- Model of the file-name truncation: the first 50 characters when longer than 50. -/
def truncName (fileName : String) : String :=
  if fileName.length > 50 then fileName.take 50 else fileName

def fileMsg (f : FileMessage) : ChatMsg :=
  { role := "file", content := some f.content, fileName := some (truncName f.fileName) }

/-- The body of the `files.map` callback: size check (guarded by JS
truthiness of `maxFileSize`, so a zero limit disables the check), extension
check (`!extension || !allowedExtensions.includes(extension)`), then the
message with the truncated file name. -/
def fileMessageOf (mfs : Nat) (allowed : Option (List String)) (f : FileMessage) :
    Except String ChatMsg :=
  if mfs ≠ 0 ∧ f.content.length > mfs then
    Except.error ("File " ++ f.fileName ++ " exceeds maximum size of " ++
      toString mfs ++ " bytes")
  else
    match allowed with
    | some exts =>
      if extOf f.fileName = "" ∨ extOf f.fileName ∉ exts then
        Except.error ("File " ++ f.fileName ++ " has unsupported extension. Allowed: " ++
          String.intercalate ", " exts)
      else Except.ok (fileMsg f)
    | none => Except.ok (fileMsg f)

/-- Model of files.map with a throwing callback: the first offending file's error
aborts the traversal. -/
def mapFiles (mfs : Nat) (allowed : Option (List String)) :
    List FileMessage → Except String (List ChatMsg)
  | [] => Except.ok []
  | f :: fs =>
    match fileMessageOf mfs allowed f with
    | Except.error e => Except.error e
    | Except.ok m =>
      match mapFiles mfs allowed fs with
      | Except.error e => Except.error e
      | Except.ok ms => Except.ok (m :: ms)

/-- Model of createFileMessages (client.ts lines 249-279): apply the default
10 MiB limit under the caller's options, then map over the files. -/
def createFileMessages (files : List FileMessage) (opts : FileUploadOptions) :
    Except String (List ChatMsg) :=
  mapFiles (opts.maxFileSize.getD (10 * 1024 * 1024)) opts.allowedExtensions files

/-- The request-building part of `createChatCompletionWithFiles` (client.ts
lines 284-296): the file messages are prepended before the caller's
messages. -/
def requestWithFiles (req : ChatReq) (files : List FileMessage)
    (opts : FileUploadOptions) : Except String ChatReq :=
  match createFileMessages files opts with
  | Except.error e => Except.error e
  | Except.ok ms => Except.ok { req with messages := ms ++ req.messages }

/-- A file passes the size check. -/
def sizeOk (mfs : Nat) (f : FileMessage) : Prop :=
  ¬(mfs ≠ 0 ∧ f.content.length > mfs)

/-- A file passes the extension check. -/
def extOk (allowed : Option (List String)) (f : FileMessage) : Prop :=
  allowed = none ∨
    ∃ exts, allowed = some exts ∧ extOf f.fileName ≠ "" ∧ extOf f.fileName ∈ exts

def cfgCustom : EasyLLMConfig :=
  { apiKey := "k"
    baseURL := some "https://custom-api.com/v1"
    provider := some "custom"
    timeout := some 60000
    maxRetries := some 5
    webSearch := none }

def cfgOpenAI : EasyLLMConfig :=
  { apiKey := "k"
    baseURL := some "ignored"
    provider := some "openai"
    timeout := none
    maxRetries := none
    webSearch := none }

def cfgEnabled : ResolvedConfig :=
  { apiKey := "k"
    baseURL := "https://api.llm.vin/v1"
    provider := "llm.vin"
    timeout := 30000
    maxRetries := 3
    webSearchEnabled := true
    webSearchMaxResults := 5
    webSearchIncludeContent := true }

def reqExplicitFalse : ChatReq :=
  { model := "m", messages := [], stream := none, webSearch := some false }

def reqNoWebSearch : ChatReq :=
  { model := "m", messages := [], stream := none, webSearch := none }

/-- A parser accepting every payload; used to instantiate the abstract
`JSON.parse` parameter in witnesses. -/
def parseId : List Char → Option (List Char) := fun l => some l

/-- A parser accepting exactly the payload `"{}"`; used to instantiate the
abstract `JSON.parse` parameter in witnesses that need a rejected frame. -/
def parseBrace : List Char → Option (List Char) :=
  fun l => if l = "\x7b\x7d".toList then some l else none

def largeContent : String := String.mk (List.replicate 60 'x')

/-! ## Theorems -/

theorem splitBuf_newline (cs : List Char) :
    splitBuf ('\n' :: cs) = ([] :: (splitBuf cs).1, (splitBuf cs).2) := by
  simp [splitBuf]

theorem splitBuf_cons_ne_nil {c : Char} (cs : List Char) (hc : c ≠ '\n')
    (h : (splitBuf cs).1 = []) :
    splitBuf (c :: cs) = ([], c :: (splitBuf cs).2) := by
  simp [splitBuf, hc, h]

theorem splitBuf_cons_ne_cons {c : Char} (cs : List Char) (hc : c ≠ '\n')
    {l : List Char} {ls' : List (List Char)} (h : (splitBuf cs).1 = l :: ls') :
    splitBuf (c :: cs) = ((c :: l) :: ls', (splitBuf cs).2) := by
  simp [splitBuf, hc, h]

/-- The retained remainder never contains a newline. -/
theorem splitBuf_snd_no_newline (l : List Char) : '\n' ∉ (splitBuf l).2 := by
  induction l with
  | nil => simp [splitBuf]
  | cons c cs ih =>
    by_cases hc : c = '\n'
    · subst hc
      rw [splitBuf_newline]
      exact ih
    · cases h : (splitBuf cs).1 with
      | nil =>
        rw [splitBuf_cons_ne_nil cs hc h]
        simp only [List.mem_cons, not_or]
        exact ⟨fun he => hc he.symm, ih⟩
      | cons l ls' =>
        rw [splitBuf_cons_ne_cons cs hc h]
        exact ih

/-- A newline-free text splits into no complete line and itself as remainder. -/
theorem splitBuf_no_newline (l : List Char) (h : '\n' ∉ l) : splitBuf l = ([], l) := by
  induction l with
  | nil => rfl
  | cons c cs ih =>
    simp only [List.mem_cons, not_or] at h
    have hc : c ≠ '\n' := fun he => h.1 he.symm
    have hcs := ih h.2
    have h1 : (splitBuf cs).1 = [] := by rw [hcs]
    have h2 : (splitBuf cs).2 = cs := by rw [hcs]
    rw [splitBuf_cons_ne_nil cs hc h1, h2]

/-- Splitting a concatenation: first split the left part, then re-split its
remainder glued to the right part.  This is the algebraic heart of the
carry-over buffer discipline. -/
theorem splitBuf_append (x y : List Char) :
    splitBuf (x ++ y) =
      ((splitBuf x).1 ++ (splitBuf ((splitBuf x).2 ++ y)).1,
        (splitBuf ((splitBuf x).2 ++ y)).2) := by
  induction x with
  | nil => simp [splitBuf]
  | cons c cs ih =>
    by_cases hc : c = '\n'
    · subst hc
      rw [List.cons_append, splitBuf_newline, splitBuf_newline]
      rw [ih]
      simp
    · rw [List.cons_append]
      cases h1 : (splitBuf cs).1 with
      | nil =>
        rw [splitBuf_cons_ne_nil cs hc h1]
        have hmid : (splitBuf (cs ++ y)).1 = (splitBuf ((splitBuf cs).2 ++ y)).1 ∧
            (splitBuf (cs ++ y)).2 = (splitBuf ((splitBuf cs).2 ++ y)).2 := by
          rw [ih, h1]
          simp
        rw [List.nil_append]
        cases h2 : (splitBuf ((splitBuf cs).2 ++ y)).1 with
        | nil =>
          rw [splitBuf_cons_ne_nil (cs ++ y) hc (hmid.1.trans h2)]
          have hcy : splitBuf ((c :: (splitBuf cs).2) ++ y) =
              ([], c :: (splitBuf ((splitBuf cs).2 ++ y)).2) := by
            rw [List.cons_append]
            exact splitBuf_cons_ne_nil _ hc h2
          rw [hcy, hmid.2]
        | cons l2 ls2' =>
          rw [splitBuf_cons_ne_cons (cs ++ y) hc (hmid.1.trans h2)]
          have hcy : splitBuf ((c :: (splitBuf cs).2) ++ y) =
              ((c :: l2) :: ls2', (splitBuf ((splitBuf cs).2 ++ y)).2) := by
            rw [List.cons_append]
            exact splitBuf_cons_ne_cons _ hc h2
          rw [hcy, hmid.2]
      | cons l ls' =>
        rw [splitBuf_cons_ne_cons cs hc h1]
        have hmid : (splitBuf (cs ++ y)).1 = l :: (ls' ++ (splitBuf ((splitBuf cs).2 ++ y)).1) ∧
            (splitBuf (cs ++ y)).2 = (splitBuf ((splitBuf cs).2 ++ y)).2 := by
          rw [ih, h1]
          simp
        rw [splitBuf_cons_ne_cons (cs ++ y) hc hmid.1, hmid.2]
        simp

/-- Splitting a full line (newline-terminated, newline-free body) followed by
the rest of the byte stream. -/
theorem splitBuf_line (l rest : List Char) (h : '\n' ∉ l) :
    splitBuf (l ++ '\n' :: rest) = (l :: (splitBuf rest).1, (splitBuf rest).2) := by
  induction l with
  | nil => rw [List.nil_append, splitBuf_newline]
  | cons c cs ih =>
    simp only [List.mem_cons, not_or] at h
    have hc : c ≠ '\n' := fun he => h.1 he.symm
    have hcs := ih h.2
    rw [List.cons_append]
    have h1 : (splitBuf (cs ++ '\n' :: rest)).1 = cs :: (splitBuf rest).1 := by rw [hcs]
    have h2 : (splitBuf (cs ++ '\n' :: rest)).2 = (splitBuf rest).2 := by rw [hcs]
    rw [splitBuf_cons_ne_cons (cs ++ '\n' :: rest) hc h1, h2]

theorem lineStep_finished {α : Type} (parse : List Char → Option α)
    (core : DecCore α) (l : List Char) (h : core.finished = true) :
    lineStep parse core l = core := by
  simp [lineStep, h]

theorem foldLines_finished {α : Type} (parse : List Char → Option α)
    (core : DecCore α) (ls : List (List Char)) (h : core.finished = true) :
    foldLines parse core ls = core := by
  induction ls with
  | nil => rfl
  | cons l ls ih =>
    show foldLines parse (lineStep parse core l) ls = core
    rw [lineStep_finished parse core l h, ih]

theorem foldLines_append {α : Type} (parse : List Char → Option α)
    (core : DecCore α) (ls₁ ls₂ : List (List Char)) :
    foldLines parse core (ls₁ ++ ls₂) = foldLines parse (foldLines parse core ls₁) ls₂ :=
  List.foldl_append ..

theorem foldLines_singleton {α : Type} (parse : List Char → Option α)
    (core : DecCore α) (l : List Char) :
    foldLines parse core [l] = lineStep parse core l := rfl

theorem feedSegment_finished {α : Type} (parse : List Char → Option α)
    (st : DecState α) (seg : List Char) (h : st.core.finished = true) :
    feedSegment parse st seg = st := by
  simp [feedSegment, h]

theorem feedSegment_not_finished {α : Type} (parse : List Char → Option α)
    (st : DecState α) (seg : List Char) (h : st.core.finished = false) :
    feedSegment parse st seg =
      { buffer := (splitBuf (st.buffer ++ seg)).2,
        core := foldLines parse st.core (splitBuf (st.buffer ++ seg)).1 } := by
  simp [feedSegment, h]

/-- Feeding the empty segment is a no-op (the buffer holds no newline, so the
split yields no complete line and retains the buffer unchanged). -/
theorem feedSegment_nil {α : Type} (parse : List Char → Option α)
    (st : DecState α) (h : '\n' ∉ st.buffer) :
    feedSegment parse st [] = st := by
  cases hf : st.core.finished with
  | true => exact feedSegment_finished parse st [] hf
  | false =>
    rw [feedSegment_not_finished parse st [] hf, List.append_nil,
      splitBuf_no_newline st.buffer h]
    rfl

theorem feedSegment_buffer_no_newline {α : Type} (parse : List Char → Option α)
    (st : DecState α) (seg : List Char) (h : '\n' ∉ st.buffer) :
    '\n' ∉ (feedSegment parse st seg).buffer := by
  cases hf : st.core.finished with
  | true => rw [feedSegment_finished parse st seg hf]; exact h
  | false =>
    rw [feedSegment_not_finished parse st seg hf]
    exact splitBuf_snd_no_newline (st.buffer ++ seg)

theorem ObsEq.refl {α : Type} (s : DecState α) : ObsEq s s :=
  ⟨rfl, fun _ => rfl⟩

theorem ObsEq.trans {α : Type} {s t u : DecState α} (h₁ : ObsEq s t) (h₂ : ObsEq t u) :
    ObsEq s u :=
  ⟨h₁.1.trans h₂.1, fun hf => (h₁.2 hf).trans (h₂.2 (h₁.1 ▸ hf))⟩

theorem feedSegment_congr {α : Type} (parse : List Char → Option α)
    {s t : DecState α} (h : ObsEq s t) (seg : List Char) :
    ObsEq (feedSegment parse s seg) (feedSegment parse t seg) := by
  cases hf : s.core.finished with
  | true =>
    rw [feedSegment_finished parse s seg hf, feedSegment_finished parse t seg (h.1 ▸ hf)]
    exact h
  | false =>
    rw [feedSegment_not_finished parse s seg hf,
      feedSegment_not_finished parse t seg (h.1 ▸ hf), h.1, h.2 hf]
    exact ObsEq.refl _

/-- Segment-boundary fusion: delivering `a` then `b` is observationally the
same as delivering their concatenation in one segment. -/
theorem feedSegment_append {α : Type} (parse : List Char → Option α)
    (st : DecState α) (a b : List Char) :
    ObsEq (feedSegment parse (feedSegment parse st a) b) (feedSegment parse st (a ++ b)) := by
  cases hf : st.core.finished with
  | true =>
    rw [feedSegment_finished parse st a hf, feedSegment_finished parse st b hf,
      feedSegment_finished parse st (a ++ b) hf]
    exact ObsEq.refl st
  | false =>
    have hsplit : splitBuf (st.buffer ++ (a ++ b)) =
        ((splitBuf (st.buffer ++ a)).1 ++
          (splitBuf ((splitBuf (st.buffer ++ a)).2 ++ b)).1,
          (splitBuf ((splitBuf (st.buffer ++ a)).2 ++ b)).2) := by
      rw [← List.append_assoc]
      exact splitBuf_append (st.buffer ++ a) b
    rw [feedSegment_not_finished parse st a hf,
      feedSegment_not_finished parse st (a ++ b) hf, hsplit]
    cases hm : (foldLines parse st.core (splitBuf (st.buffer ++ a)).1).finished with
    | true =>
      rw [feedSegment_finished parse _ b hm]
      constructor
      · show foldLines parse st.core (splitBuf (st.buffer ++ a)).1 = _
        rw [foldLines_append, foldLines_finished parse _ _ hm]
      · intro hcontra
        exact absurd (hm.symm.trans hcontra) (by simp)
    | false =>
      rw [feedSegment_not_finished parse _ b hm]
      show ObsEq
        { buffer := (splitBuf ((splitBuf (st.buffer ++ a)).2 ++ b)).2,
          core := foldLines parse (foldLines parse st.core (splitBuf (st.buffer ++ a)).1)
            (splitBuf ((splitBuf (st.buffer ++ a)).2 ++ b)).1 } _
      rw [foldLines_append]
      exact ObsEq.refl _

/-- Feeding a list of segments is observationally feeding their
concatenation: the decode outcome does not depend on where the transport cut
the byte stream. -/
theorem feedAll_join {α : Type} (parse : List Char → Option α)
    (segs : List (List Char)) :
    ∀ st : DecState α, '\n' ∉ st.buffer →
      ObsEq (feedAll parse st segs) (feedSegment parse st segs.flatten) := by
  induction segs with
  | nil =>
    intro st h
    show ObsEq st (feedSegment parse st [])
    rw [feedSegment_nil parse st h]
    exact ObsEq.refl st
  | cons a rest ih =>
    intro st h
    show ObsEq (feedAll parse (feedSegment parse st a) rest) _
    have h1 := ih (feedSegment parse st a) (feedSegment_buffer_no_newline parse st a h)
    have h2 := feedSegment_append parse st a rest.flatten
    rw [List.flatten_cons]
    exact h1.trans h2

/-- The observable outcome of a run is determined by the concatenation of the
delivered segments. -/
theorem runDecoder_join {α : Type} (parse : List Char → Option α)
    (segs : List (List Char)) :
    runDecoder parse segs = runDecoder parse [segs.flatten] := by
  have h1 := feedAll_join parse segs (initState (α := α)) (by simp [initState])
  have h2 : feedAll parse (initState (α := α)) [segs.flatten] =
      feedSegment parse initState segs.flatten := rfl
  unfold runDecoder
  rw [h2, h1.1]

theorem isPrefixOf_append (x y : List Char) : x.isPrefixOf (x ++ y) = true := by
  induction x with
  | nil => simp [List.isPrefixOf]
  | cons a as ih => simp [List.isPrefixOf, ih]

theorem splitBuf_unlines (ls : List (List Char)) (h : ∀ l ∈ ls, '\n' ∉ l) :
    splitBuf (unlines ls) = (ls, []) := by
  induction ls with
  | nil => rfl
  | cons l ls ih =>
    have : unlines (l :: ls) = l ++ '\n' :: unlines ls := by
      show (l ++ ['\n']) ++ unlines ls = _
      rw [List.append_assoc]
      rfl
    rw [this, splitBuf_line l (unlines ls) (h l (by simp)),
      ih (fun x hx => h x (by simp [hx]))]

theorem lineStep_goodFrame {α : Type} (parse : List Char → Option α)
    (core : DecCore α) {p : List Char} {c : α} (hg : GoodFrame parse p c)
    (hf : core.finished = false) :
    lineStep parse core (dataMark ++ p) = { core with chunks := core.chunks ++ [c] } := by
  obtain ⟨-, htrim, hneq, hparse⟩ := hg
  unfold lineStep
  rw [hf]
  simp only [Bool.false_eq_true, if_false, htrim]
  rw [if_neg (by simp [dataMark]), if_neg hneq, if_neg (by rw [isPrefixOf_append]; simp)]
  have hdrop : (dataMark ++ p).drop 6 = p := by
    have : dataMark.length = 6 := rfl
    rw [← this, List.drop_left]
  rw [hdrop, hparse]

theorem lineStep_badFrame {α : Type} (parse : List Char → Option α)
    (core : DecCore α) {q : List Char} (hb : BadFrame parse q)
    (hf : core.finished = false) :
    lineStep parse core (dataMark ++ q) = { core with warnings := core.warnings + 1 } := by
  obtain ⟨-, htrim, hneq, hparse⟩ := hb
  unfold lineStep
  rw [hf]
  simp only [Bool.false_eq_true, if_false, htrim]
  rw [if_neg (by simp [dataMark]), if_neg hneq, if_neg (by rw [isPrefixOf_append]; simp)]
  have hdrop : (dataMark ++ q).drop 6 = q := by
    have : dataMark.length = 6 := rfl
    rw [← this, List.drop_left]
  rw [hdrop, hparse]

theorem lineStep_done {α : Type} (parse : List Char → Option α)
    (core : DecCore α) (hf : core.finished = false) :
    lineStep parse core doneMark =
      { core with completions := core.completions + 1, finished := true } := by
  unfold lineStep
  rw [hf]
  simp only [Bool.false_eq_true, if_false]
  rw [if_neg (by decide), if_pos (by decide)]

theorem goodFrames_no_newline {α : Type} {parse : List Char → Option α}
    {ps : List (List Char)} {cs : List α}
    (h : List.Forall₂ (GoodFrame parse) ps cs) : ∀ p ∈ ps, '\n' ∉ p := by
  induction h with
  | nil => intro p hp; cases hp
  | cons hg _ ih =>
    intro p hp
    rcases List.mem_cons.mp hp with rfl | hp
    · exact hg.1
    · exact ih p hp

theorem foldLines_goodFrames {α : Type} (parse : List Char → Option α)
    {ps : List (List Char)} {cs : List α}
    (h : List.Forall₂ (GoodFrame parse) ps cs) :
    ∀ core : DecCore α, core.finished = false →
      foldLines parse core (ps.map (fun p => dataMark ++ p)) =
        { core with chunks := core.chunks ++ cs } := by
  induction h with
  | nil => intro core _; simp [foldLines]
  | cons hg hrest ih =>
    intro core hf
    rename_i p c ps' cs'
    show foldLines parse (lineStep parse core (dataMark ++ p)) (ps'.map _) = _
    rw [lineStep_goodFrame parse core hg hf, ih _ (by rw [hf])]
    simp

theorem lineStep_compInv {α : Type} (parse : List Char → Option α)
    (core : DecCore α) (l : List Char) (h : CompInv core) :
    CompInv (lineStep parse core l) := by
  unfold lineStep
  cases hf : core.finished with
  | true => simpa [hf] using h
  | false =>
    simp only [Bool.false_eq_true, if_false]
    by_cases h1 : trimChars l = []
    · simpa [h1] using h
    · by_cases h2 : trimChars l = doneMark
      · have hd : doneMark ≠ [] := by decide
        unfold CompInv at h ⊢
        rw [hf] at h
        simp [h1, h2, hd, h]
      · by_cases h3 : dataMark.isPrefixOf (trimChars l)
        · cases hp : parse ((trimChars l).drop 6) with
          | some c =>
            unfold CompInv at h ⊢
            simp [h1, h2, h3, hp, hf, hf ▸ h]
          | none =>
            unfold CompInv at h ⊢
            simp [h1, h2, h3, hp, hf, hf ▸ h]
        · unfold CompInv at h ⊢
          simp [h1, h2, h3, hf, hf ▸ h]

theorem foldLines_compInv {α : Type} (parse : List Char → Option α)
    (ls : List (List Char)) :
    ∀ core : DecCore α, CompInv core → CompInv (foldLines parse core ls) := by
  induction ls with
  | nil => intro core h; exact h
  | cons l ls ih =>
    intro core h
    exact ih _ (lineStep_compInv parse core l h)

theorem feedAll_compInv {α : Type} (parse : List Char → Option α)
    (segs : List (List Char)) :
    ∀ st : DecState α, CompInv st.core → CompInv (feedAll parse st segs).core := by
  induction segs with
  | nil => intro st h; exact h
  | cons seg segs ih =>
    intro st h
    show CompInv (feedAll parse (feedSegment parse st seg) segs).core
    apply ih
    cases hf : st.core.finished with
    | true => rw [feedSegment_finished parse st seg hf]; exact h
    | false =>
      rw [feedSegment_not_finished parse st seg hf]
      exact foldLines_compInv parse _ st.core h

theorem feedAll_finished_frozen {α : Type} (parse : List Char → Option α)
    (segs : List (List Char)) :
    ∀ st : DecState α, st.core.finished = true → feedAll parse st segs = st := by
  induction segs with
  | nil => intro st _; rfl
  | cons seg segs ih =>
    intro st h
    show feedAll parse (feedSegment parse st seg) segs = st
    rw [feedSegment_finished parse st seg h, ih st h]

theorem streamOf_lines_no_newline {α : Type} {parse : List Char → Option α}
    {ps : List (List Char)} {cs : List α}
    (hwf : List.Forall₂ (GoodFrame parse) ps cs) :
    ∀ l ∈ ps.map (fun p => dataMark ++ p) ++ [doneMark], '\n' ∉ l := by
  intro l hl
  rcases List.mem_append.mp hl with hl | hl
  · obtain ⟨p, hp, rfl⟩ := List.mem_map.mp hl
    intro hmem
    rcases List.mem_append.mp hmem with hm | hm
    · exact absurd hm (by decide)
    · exact goodFrames_no_newline hwf p hp hm
  · rw [List.mem_singleton.mp hl]
    decide

/-- C1: for every finite list of byte segments whose concatenation forms N
well-formed `data: {...}` lines followed by a `data: [DONE]` line, feeding
the segments one at a time yields exactly the N parsed chunks, in frame
order, independently of where the segment boundaries fall, and the
completion callback fires exactly once. -/
theorem C1_sse_segmentation_invariance {α : Type} (parse : List Char → Option α)
    (ps : List (List Char)) (cs : List α)
    (hwf : List.Forall₂ (GoodFrame parse) ps cs)
    (segs : List (List Char)) (hsegs : segs.flatten = streamOf ps) :
    (runDecoder parse segs).chunks = cs ∧ (runDecoder parse segs).completions = 1 := by
  rw [runDecoder_join parse segs, hsegs]
  have hsplit : splitBuf (streamOf ps) =
      (ps.map (fun p => dataMark ++ p) ++ [doneMark], []) :=
    splitBuf_unlines _ (streamOf_lines_no_newline hwf)
  have hcore : foldLines parse (initState (α := α)).core
      (ps.map (fun p => dataMark ++ p) ++ [doneMark]) =
      { chunks := cs, warnings := 0, completions := 1, finished := true } := by
    rw [foldLines_append, foldLines_goodFrames parse hwf _ rfl, foldLines_singleton,
      lineStep_done parse _ rfl]
    simp [initState]
  have hfeed : feedAll parse initState [streamOf ps] =
      { buffer := [],
        core := { chunks := cs, warnings := 0, completions := 1, finished := true } } := by
    show feedSegment parse initState (streamOf ps) = _
    rw [feedSegment_not_finished parse initState (streamOf ps) rfl,
      show (initState (α := α)).buffer ++ streamOf ps = streamOf ps from
        List.nil_append _, hsplit, hcore]
  unfold runDecoder
  rw [hfeed]
  exact ⟨rfl, rfl⟩

/-- C3: a line shaped like a frame whose payload the parser rejects is
dropped with exactly one warning signal; every well-formed frame before and
after it is still parsed and yielded, the sentinel still completes the run,
and no error reaches the error callback or the consumer. -/
theorem C3_malformed_frame_skipped {α : Type} (parse : List Char → Option α)
    (ps₁ : List (List Char)) (q : List Char) (ps₂ : List (List Char))
    (cs₁ cs₂ : List α)
    (h₁ : List.Forall₂ (GoodFrame parse) ps₁ cs₁) (hb : BadFrame parse q)
    (h₂ : List.Forall₂ (GoodFrame parse) ps₂ cs₂) :
    (runDecoder parse [streamWithBad ps₁ q ps₂]).chunks = cs₁ ++ cs₂ ∧
    (runDecoder parse [streamWithBad ps₁ q ps₂]).warnings = 1 ∧
    (runDecoder parse [streamWithBad ps₁ q ps₂]).completions = 1 ∧
    streamRun parse
        { ok := true, status := 200, bodyText := "", body := some [streamWithBad ps₁ q ps₂] } =
      (Except.ok (runDecoder parse [streamWithBad ps₁ q ps₂]), []) := by
  have hlines : ∀ l ∈ ps₁.map (fun p => dataMark ++ p) ++ [dataMark ++ q] ++
      ps₂.map (fun p => dataMark ++ p) ++ [doneMark], '\n' ∉ l := by
    intro l hl
    rcases List.mem_append.mp hl with hl | hl
    · rcases List.mem_append.mp hl with hl | hl
      · rcases List.mem_append.mp hl with hl | hl
        · obtain ⟨p, hp, rfl⟩ := List.mem_map.mp hl
          intro hmem
          rcases List.mem_append.mp hmem with hm | hm
          · exact absurd hm (by decide)
          · exact goodFrames_no_newline h₁ p hp hm
        · rw [List.mem_singleton.mp hl]
          intro hmem
          rcases List.mem_append.mp hmem with hm | hm
          · exact absurd hm (by decide)
          · exact hb.1 hm
      · obtain ⟨p, hp, rfl⟩ := List.mem_map.mp hl
        intro hmem
        rcases List.mem_append.mp hmem with hm | hm
        · exact absurd hm (by decide)
        · exact goodFrames_no_newline h₂ p hp hm
    · rw [List.mem_singleton.mp hl]
      decide
  have hsplit : splitBuf (streamWithBad ps₁ q ps₂) =
      (ps₁.map (fun p => dataMark ++ p) ++ [dataMark ++ q] ++
        ps₂.map (fun p => dataMark ++ p) ++ [doneMark], []) :=
    splitBuf_unlines _ hlines
  have hcore : foldLines parse (initState (α := α)).core
      (ps₁.map (fun p => dataMark ++ p) ++ [dataMark ++ q] ++
        ps₂.map (fun p => dataMark ++ p) ++ [doneMark]) =
      { chunks := cs₁ ++ cs₂, warnings := 1, completions := 1, finished := true } := by
    rw [foldLines_append, foldLines_append, foldLines_append]
    rw [foldLines_goodFrames parse h₁ _ rfl]
    rw [foldLines_singleton, foldLines_singleton]
    rw [lineStep_badFrame parse _ hb rfl]
    rw [foldLines_goodFrames parse h₂ _ rfl]
    rw [lineStep_done parse _ rfl]
    simp [initState]
  have hfeed : feedAll parse initState [streamWithBad ps₁ q ps₂] =
      { buffer := [],
        core := { chunks := cs₁ ++ cs₂, warnings := 1, completions := 1, finished := true } } := by
    show feedSegment parse initState (streamWithBad ps₁ q ps₂) = _
    rw [feedSegment_not_finished parse initState (streamWithBad ps₁ q ps₂) rfl,
      show (initState (α := α)).buffer ++ streamWithBad ps₁ q ps₂ = streamWithBad ps₁ q ps₂ from
        List.nil_append _, hsplit, hcore]
  have hrun : runDecoder parse [streamWithBad ps₁ q ps₂] =
      { chunks := cs₁ ++ cs₂, warnings := 1, completions := 1, finished := true } := by
    unfold runDecoder
    rw [hfeed]
    rfl
  refine ⟨by rw [hrun], by rw [hrun], by rw [hrun], ?_⟩
  rw [show streamRun parse
      { ok := true, status := 200, bodyText := "",
        body := some [streamWithBad ps₁ q ps₂] } =
    (Except.ok (runDecoder parse [streamWithBad ps₁ q ps₂] : DecCore α), []) from rfl]

/-- C4: every decode run fires the completion callback exactly once — either
at the `data: [DONE]` sentinel or at end-of-stream when the sentinel never
arrives — and once the sentinel has been processed, all later segments are
discarded without affecting the outcome. -/
theorem C4_termination_completion {α : Type} (parse : List Char → Option α)
    (segs : List (List Char)) :
    (runDecoder parse segs).completions = 1 ∧
    (∀ extra : List (List Char), (runDecoder parse segs).finished = true →
      runDecoder parse (segs ++ extra) = runDecoder parse segs) := by
  have hinv : CompInv (feedAll parse initState segs).core :=
    feedAll_compInv parse segs initState rfl
  constructor
  · unfold runDecoder
    unfold CompInv at hinv
    by_cases hf : (feedAll parse initState segs).core.finished = true
    · rw [if_pos hf, hinv, if_pos hf]
    · rw [if_neg hf]
      show (feedAll parse initState segs).core.completions + 1 = 1
      rw [hinv, if_neg hf]
  · intro extra hfin
    have hfin' : (feedAll parse initState segs).core.finished = true := by
      unfold runDecoder at hfin
      by_cases hf : (feedAll parse initState segs).core.finished = true
      · exact hf
      · rw [if_neg hf] at hfin
        exact absurd hfin hf
    unfold runDecoder
    rw [show feedAll parse (initState (α := α)) (segs ++ extra) =
        feedAll parse (feedAll parse initState segs) extra from List.foldl_append ..,
      feedAll_finished_frozen parse extra _ hfin']

/-- Under an everlasting 500, every 500 response re-enters the interceptor,
which restarts `retryRequest` at `retryCount = 0`: the recursion never
reaches the `maxRetries` guard, so no amount of fuel produces a terminating
outcome — the code retries forever (at a constant 1-second delay) instead of
throwing after `maxRetries` attempts. -/
theorem alwaysServerError_no_exit (fuel : Nat) :
    ∀ calls delays,
      (runClient alwaysServerError 3 fuel RetryMode.request calls delays).outcome =
        RequestOutcome.fuelExhausted ∧
      (runClient alwaysServerError 3 fuel (RetryMode.retrying 0) calls delays).outcome =
        RequestOutcome.fuelExhausted := by
  induction fuel with
  | zero => intro calls delays; exact ⟨rfl, rfl⟩
  | succ fuel ih =>
    intro calls delays
    constructor
    · show (runClient alwaysServerError 3 fuel (RetryMode.retrying 0) (calls + 1) delays).outcome = _
      exact (ih (calls + 1) delays).2
    · show (if 3 ≤ 0 then (⟨RequestOutcome.maxRetriesExceeded, calls, delays⟩ : RunResult)
        else
          match runClient alwaysServerError 3 fuel RetryMode.request calls (delays ++ [2 ^ 0]) with
          | ⟨RequestOutcome.success body, c, d⟩ => ⟨RequestOutcome.success body, c, d⟩
          | ⟨RequestOutcome.fuelExhausted, c, d⟩ => ⟨RequestOutcome.fuelExhausted, c, d⟩
          | ⟨_, c, d⟩ =>
            runClient alwaysServerError 3 fuel (RetryMode.retrying (0 + 1)) c d).outcome = _
      rw [if_neg (by decide)]
      have h1 := (ih calls (delays ++ [2 ^ 0])).1
      cases hr : runClient alwaysServerError 3 fuel RetryMode.request calls (delays ++ [2 ^ 0]) with
      | mk o c d =>
        rw [hr] at h1
        cases o with
        | fuelExhausted => rfl
        | success body => exact absurd h1 (by simp)
        | httpFailure s b => exact absurd h1 (by simp)
        | netFailure m => exact absurd h1 (by simp)
        | maxRetriesExceeded => exact absurd h1 (by simp)

/-- C2 (code bug): the interceptor/retry interplay does not implement the
specified policy.  (1) Under a transport that returns 500 on every attempt
with `maxRetries = 3`, the client never terminates: each 500 re-enters the
interceptor and restarts `retryRequest` at `retryCount = 0`, so no fuel
bound suffices — instead of throwing after exactly 4 attempts with the most
recent failure.  (2) Under 500-500-500-200 the 200 body is indeed returned
after exactly 4 invocations, but the three waits are a constant 1 second
each (`2^0` at every restarted depth), not the specified `2^N` backoff. -/
theorem C2_retry_policy_code_bug :
    (∀ fuel calls delays,
      (runClient alwaysServerError 3 fuel RetryMode.request calls delays).outcome =
        RequestOutcome.fuelExhausted) ∧
    runClient serverErrorsThenOk 3 32 RetryMode.request 0 [] =
      ⟨RequestOutcome.success "ok", 4, [1, 1, 1]⟩ := by
  constructor
  · intro fuel calls delays
    exact (alwaysServerError_no_exit fuel calls delays).1
  · rfl

/-- C6 counterexample: a 4xx received on a retry attempt after an earlier
5xx does *not* propagate immediately — `retryRequest`'s catch swallows it
and keeps retrying (three more transport invocations, backoff 1, 2, 4),
and the error finally surfaced is the generic `Max retries exceeded`, not
the 404 with its body text. -/
theorem C6_counterexample_4xx_on_retry_retried :
    runClient serverErrorThenNotFound 3 20 RetryMode.request 0 [] =
      ⟨RequestOutcome.maxRetriesExceeded, 4, [1, 2, 4]⟩ ∧
    (runClient serverErrorThenNotFound 3 20 RetryMode.request 0 []).outcome ≠
      RequestOutcome.httpFailure 404 "not found" ∧
    (runClient serverErrorThenNotFound 3 20 RetryMode.request 0 []).calls ≠ 2 :=
  ⟨rfl, by decide, by decide⟩

/-- C6 (amended): a non-5xx failure on the *first* attempt propagates
immediately — exactly one transport invocation, no wait, and the status and
body text preserved in the surfaced error; but a 4xx on a retry attempt
following an earlier 5xx is caught by `retryRequest` and retried with
backoff until the budget is exhausted, after which the generic
`Max retries exceeded` error is thrown instead of the 4xx failure. -/
theorem C6_4xx_immediate_only_on_first_attempt :
    (∀ (transport : Nat → TransportResult) (maxRetries status calls fuel : Nat)
        (body : String) (delays : List Nat),
      transport calls = TransportResult.httpErr status body → status < 500 →
      runClient transport maxRetries (fuel + 1) RetryMode.request calls delays =
        ⟨RequestOutcome.httpFailure status body, calls + 1, delays⟩) ∧
    runClient serverErrorThenNotFound 3 20 RetryMode.request 0 [] =
      ⟨RequestOutcome.maxRetriesExceeded, 4, [1, 2, 4]⟩ := by
  constructor
  · intro transport maxRetries status calls fuel body delays htr hlt
    have hstep : runClient transport maxRetries (fuel + 1) RetryMode.request calls delays =
        match transport calls with
        | TransportResult.ok b => ⟨RequestOutcome.success b, calls + 1, delays⟩
        | TransportResult.httpErr s b =>
          if 500 ≤ s ∧ 0 < maxRetries then
            runClient transport maxRetries fuel (RetryMode.retrying 0) (calls + 1) delays
          else ⟨RequestOutcome.httpFailure s b, calls + 1, delays⟩
        | TransportResult.netErr m => ⟨RequestOutcome.netFailure m, calls + 1, delays⟩ := rfl
    rw [hstep, htr]
    show (if 500 ≤ status ∧ 0 < maxRetries then
        runClient transport maxRetries fuel (RetryMode.retrying 0) (calls + 1) delays
      else ⟨RequestOutcome.httpFailure status body, calls + 1, delays⟩) =
      ⟨RequestOutcome.httpFailure status body, calls + 1, delays⟩
    rw [if_neg (fun hand : 500 ≤ status ∧ 0 < maxRetries => absurd hand.1 (by omega))]
  · rfl

theorem C6_4xx_immediate_only_on_first_attempt_witness :
    runClient (fun _ => TransportResult.httpErr 404 "not found") 3 5 RetryMode.request 0 [] =
      ⟨RequestOutcome.httpFailure 404 "not found", 1, []⟩ :=
  C6_4xx_immediate_only_on_first_attempt.1
    (fun _ => TransportResult.httpErr 404 "not found") 3 404 0 4 "not found" [] rfl (by decide)

theorem fileMessageOf_ok {mfs : Nat} {allowed : Option (List String)} {f : FileMessage}
    (hs : sizeOk mfs f) (he : extOk allowed f) :
    fileMessageOf mfs allowed f = Except.ok (fileMsg f) := by
  unfold fileMessageOf
  rw [if_neg hs]
  rcases he with he | ⟨exts, rfl, hne, hmem⟩
  · rw [he]
  · show (if extOf f.fileName = "" ∨ extOf f.fileName ∉ exts then
        Except.error ("File " ++ f.fileName ++ " has unsupported extension. Allowed: " ++
          String.intercalate ", " exts)
      else Except.ok (fileMsg f)) = Except.ok (fileMsg f)
    rw [if_neg (fun hor => Or.elim hor hne (fun hnot => hnot hmem))]

theorem mapFiles_ok (mfs : Nat) (allowed : Option (List String)) :
    ∀ files : List FileMessage,
      (∀ f ∈ files, sizeOk mfs f ∧ extOk allowed f) →
      mapFiles mfs allowed files = Except.ok (files.map fileMsg) := by
  intro files
  induction files with
  | nil => intro _; rfl
  | cons f fs ih =>
    intro h
    show (match fileMessageOf mfs allowed f with
      | Except.error e => Except.error e
      | Except.ok m =>
        match mapFiles mfs allowed fs with
        | Except.error e => Except.error e
        | Except.ok ms => Except.ok (m :: ms)) = _
    rw [fileMessageOf_ok (h f (by simp)).1 (h f (by simp)).2,
      ih (fun g hg => h g (by simp [hg]))]
    rfl

theorem mapFiles_first_error (mfs : Nat) (allowed : Option (List String))
    {f : FileMessage} {e : String} (hf : fileMessageOf mfs allowed f = Except.error e) :
    ∀ pre : List FileMessage, (∀ g ∈ pre, sizeOk mfs g ∧ extOk allowed g) →
      ∀ post : List FileMessage,
        mapFiles mfs allowed (pre ++ f :: post) = Except.error e := by
  intro pre
  induction pre with
  | nil =>
    intro _ post
    show (match fileMessageOf mfs allowed f with
      | Except.error e => Except.error e
      | Except.ok m =>
        match mapFiles mfs allowed post with
        | Except.error e => Except.error e
        | Except.ok ms => Except.ok (m :: ms)) = _
    rw [hf]
  | cons g gs ih =>
    intro h post
    show (match fileMessageOf mfs allowed g with
      | Except.error e => Except.error e
      | Except.ok m =>
        match mapFiles mfs allowed (gs ++ f :: post) with
        | Except.error e => Except.error e
        | Except.ok ms => Except.ok (m :: ms)) = _
    rw [fileMessageOf_ok (h g (by simp)).1 (h g (by simp)).2,
      ih (fun x hx => h x (by simp [hx])) post]

/-- C5: a request carrying `stream: true` handed to the non-streaming entry
point throws synchronously with a message directing the caller to the
streaming entry point, and the transport is never invoked. -/
theorem C5_stream_request_rejected (transport : ChatReq → TransportResult)
    (req : ChatReq) (h : req.stream = some true) :
    createChatCompletion transport req =
      (Except.error "Use createChatCompletionStream() for streaming requests", 0) := by
  unfold createChatCompletion
  rw [if_pos h]

theorem C5_stream_request_rejected_witness :
    createChatCompletion (fun _ => TransportResult.ok "resp")
        { model := "m", messages := [], stream := some true, webSearch := none } =
      (Except.error "Use createChatCompletionStream() for streaming requests", 0) :=
  C5_stream_request_rejected (fun _ => TransportResult.ok "resp")
    { model := "m", messages := [], stream := some true, webSearch := none } rfl

/-- C7: configuration resolution applies hardcoded defaults, then
caller-supplied overrides, then the provider-implied base URL: `openai`
forces the OpenAI endpoint, any other (or absent) provider preserves an
explicitly supplied base URL, and the `apiKey` passes through without
validation.  Resolution is a pure data merge — a total function with no
effect model. -/
theorem C7_config_resolution (c : EasyLLMConfig) :
    (resolveConfig c).apiKey = c.apiKey ∧
    (resolveConfig c).timeout = c.timeout.getD 30000 ∧
    (resolveConfig c).maxRetries = c.maxRetries.getD 3 ∧
    (resolveConfig c).webSearchEnabled = (c.webSearch.bind WebSearchOptions.enabled).getD false ∧
    (resolveConfig c).webSearchMaxResults =
      (c.webSearch.bind WebSearchOptions.maxResults).getD 5 ∧
    (resolveConfig c).webSearchIncludeContent =
      (c.webSearch.bind WebSearchOptions.includeContent).getD true ∧
    (c.provider = some "openai" →
      (resolveConfig c).baseURL = "https://api.openai.com/v1") ∧
    (∀ p u, c.provider = some p → p ≠ "openai" → c.baseURL = some u →
      (resolveConfig c).baseURL = u) ∧
    (∀ u, c.provider = none → c.baseURL = some u → (resolveConfig c).baseURL = u) ∧
    (c.provider = none → c.baseURL = none →
      (resolveConfig c).baseURL = "https://api.llm.vin/v1") := by
  unfold resolveConfig
  by_cases hp : c.provider.getD "llm.vin" = "openai"
  · rw [if_pos hp]
    refine ⟨rfl, rfl, rfl, rfl, rfl, rfl, fun _ => rfl, ?_, ?_, ?_⟩
    · intro p u hps hpo _
      rw [hps] at hp
      exact absurd hp hpo
    · intro u hpn _
      rw [hpn] at hp
      exact absurd hp (by decide)
    · intro hpn _
      rw [hpn] at hp
      exact absurd hp (by decide)
  · rw [if_neg hp]
    refine ⟨rfl, rfl, rfl, rfl, rfl, rfl, ?_, ?_, ?_, ?_⟩
    · intro hps
      rw [hps] at hp
      exact absurd rfl hp
    · intro p u hps hpo hbu
      show c.baseURL.getD "https://api.llm.vin/v1" = u
      rw [hbu]
      rfl
    · intro u hpn hbu
      show c.baseURL.getD "https://api.llm.vin/v1" = u
      rw [hbu]
      rfl
    · intro hpn hbu
      show c.baseURL.getD "https://api.llm.vin/v1" = "https://api.llm.vin/v1"
      rw [hbu]
      rfl

theorem C7_config_resolution_witness :
    (resolveConfig cfgCustom).baseURL = "https://custom-api.com/v1" ∧
    (resolveConfig cfgCustom).timeout = 60000 ∧
    (resolveConfig cfgOpenAI).baseURL = "https://api.openai.com/v1" := by
  have h1 := C7_config_resolution cfgCustom
  have h2 := C7_config_resolution cfgOpenAI
  refine ⟨?_, ?_, ?_⟩
  · exact h1.2.2.2.2.2.2.2.1 "custom" "https://custom-api.com/v1" rfl (by decide) rfl
  · exact h1.2.1
  · exact h2.2.2.2.2.2.2.1 rfl

/-- C8: an explicitly set request-level `webSearch` (true or false) survives
augmentation unchanged even under an enabled global toggle; an absent field
is filled with `true` exactly when the global toggle is enabled. -/
theorem C8_web_search_explicit_wins (cfg : ResolvedConfig) (req : ChatReq) :
    (∀ b, req.webSearch = some b → enhanceRequestWithWebSearch cfg req = req) ∧
    (req.webSearch = none → cfg.webSearchEnabled = true →
      enhanceRequestWithWebSearch cfg req = { req with webSearch := some true }) ∧
    (req.webSearch = none → cfg.webSearchEnabled = false →
      enhanceRequestWithWebSearch cfg req = req) := by
  refine ⟨?_, ?_, ?_⟩
  · intro b hb
    unfold enhanceRequestWithWebSearch
    rw [if_pos (by rw [hb]; exact Option.some_ne_none b)]
  · intro hn he
    unfold enhanceRequestWithWebSearch
    rw [if_neg (by rw [hn]; exact fun hx => hx rfl), if_pos he]
  · intro hn he
    unfold enhanceRequestWithWebSearch
    rw [if_neg (by rw [hn]; exact fun hx => hx rfl), if_neg (by rw [he]; exact Bool.false_ne_true)]

theorem C8_web_search_explicit_wins_witness :
    enhanceRequestWithWebSearch cfgEnabled reqExplicitFalse = reqExplicitFalse ∧
    enhanceRequestWithWebSearch cfgEnabled reqNoWebSearch =
      { reqNoWebSearch with webSearch := some true } := by
  constructor
  · exact (C8_web_search_explicit_wins cfgEnabled reqExplicitFalse).1 false rfl
  · exact (C8_web_search_explicit_wins cfgEnabled reqNoWebSearch).2.1 rfl rfl

/-- C9 counterexample: with an explicit `maxFileSize: 0`, a file whose
content length (2) exceeds the configured limit (0) is *not* rejected —
`if (defaultOptions.maxFileSize && ...)` treats the zero limit as falsy and
skips the size check entirely, so the claim's "throws for every file whose
content length exceeds maxFileSize" fails at this input. -/
theorem C9_counterexample_zero_max_file_size :
    createFileMessages [{ fileName := "a.txt", content := "xx" }]
        { maxFileSize := some 0, allowedExtensions := none } =
      Except.ok [{ role := "file", content := some "xx", fileName := some "a.txt" }] ∧
    ("xx".length > 0) := by
  constructor
  · rfl
  · decide

/-- C9 (amended): `createFileMessages` yields one `file`-role message per
input, in input order, when every file passes validation; a file whose
content length exceeds a *nonzero* `maxFileSize` (default 10 MiB; a zero
limit disables the check) makes the call throw naming the file and the
limit, at the first such file; when `allowedExtensions` is given, a file
whose lowercased extension is empty or not in the list makes the call throw
listing the allowed set joined by `", "`, at the first such file; a
`fileName` longer than 50 characters is silently truncated to its first 50
characters; and the with-files entry point prepends the file messages before
the caller's messages. -/
theorem C9_file_messages (files : List FileMessage) (opts : FileUploadOptions) :
    ((∀ f ∈ files,
        sizeOk (opts.maxFileSize.getD (10 * 1024 * 1024)) f ∧
          extOk opts.allowedExtensions f) →
      createFileMessages files opts = Except.ok (files.map fileMsg)) ∧
    (∀ pre f post, files = pre ++ f :: post →
      (∀ g ∈ pre,
        sizeOk (opts.maxFileSize.getD (10 * 1024 * 1024)) g ∧
          extOk opts.allowedExtensions g) →
      opts.maxFileSize.getD (10 * 1024 * 1024) ≠ 0 →
      f.content.length > opts.maxFileSize.getD (10 * 1024 * 1024) →
      createFileMessages files opts =
        Except.error ("File " ++ f.fileName ++ " exceeds maximum size of " ++
          toString (opts.maxFileSize.getD (10 * 1024 * 1024)) ++ " bytes")) ∧
    (∀ pre f post exts, files = pre ++ f :: post →
      (∀ g ∈ pre,
        sizeOk (opts.maxFileSize.getD (10 * 1024 * 1024)) g ∧
          extOk opts.allowedExtensions g) →
      opts.allowedExtensions = some exts →
      sizeOk (opts.maxFileSize.getD (10 * 1024 * 1024)) f →
      (extOf f.fileName = "" ∨ extOf f.fileName ∉ exts) →
      createFileMessages files opts =
        Except.error ("File " ++ f.fileName ++ " has unsupported extension. Allowed: " ++
          String.intercalate ", " exts)) ∧
    (∀ f : FileMessage, f.fileName.length > 50 →
      (fileMsg f).fileName = some (f.fileName.take 50)) ∧
    (∀ f : FileMessage, ¬ f.fileName.length > 50 →
      (fileMsg f).fileName = some f.fileName) ∧
    (∀ (req : ChatReq) (ms : List ChatMsg),
      createFileMessages files opts = Except.ok ms →
      requestWithFiles req files opts =
        Except.ok { req with messages := ms ++ req.messages }) := by
  refine ⟨?_, ?_, ?_, ?_, ?_, ?_⟩
  · intro h
    exact mapFiles_ok _ _ files h
  · intro pre f post hsplit hpre hz hlen
    have hferr : fileMessageOf (opts.maxFileSize.getD (10 * 1024 * 1024))
        opts.allowedExtensions f =
        Except.error ("File " ++ f.fileName ++ " exceeds maximum size of " ++
          toString (opts.maxFileSize.getD (10 * 1024 * 1024)) ++ " bytes") := by
      unfold fileMessageOf
      rw [if_pos ⟨hz, hlen⟩]
    rw [hsplit]
    exact mapFiles_first_error _ _ hferr pre hpre post
  · intro pre f post exts hsplit hpre hexts hsz hviol
    have hferr : fileMessageOf (opts.maxFileSize.getD (10 * 1024 * 1024))
        opts.allowedExtensions f =
        Except.error ("File " ++ f.fileName ++ " has unsupported extension. Allowed: " ++
          String.intercalate ", " exts) := by
      unfold fileMessageOf
      rw [if_neg hsz, hexts]
      show (if extOf f.fileName = "" ∨ extOf f.fileName ∉ exts then
          Except.error ("File " ++ f.fileName ++ " has unsupported extension. Allowed: " ++
            String.intercalate ", " exts)
        else Except.ok (fileMsg f)) = _
      rw [if_pos hviol]
    rw [hsplit]
    exact mapFiles_first_error _ _ hferr pre hpre post
  · intro f hlong
    unfold fileMsg truncName
    rw [if_pos hlong]
  · intro f hshort
    unfold fileMsg truncName
    rw [if_neg hshort]
  · intro req ms hok
    unfold requestWithFiles
    rw [hok]

/-- C10: when the initial response is non-2xx or carries no readable body,
the detected condition is reported to the error callback once at detection
and once more when the thrown error passes through the generator's outer
catch — the same error value both times — while the consuming sequence
rejects exactly once, with message `HTTP <status>: <body text>` in the
non-2xx case. -/
theorem C10_stream_error_double_callback {α : Type} (parse : List Char → Option α)
    (resp : FetchResponse) :
    (resp.ok = false →
      streamRun parse resp =
        (Except.error (httpErrorMsg resp.status resp.bodyText),
          [httpErrorMsg resp.status resp.bodyText, httpErrorMsg resp.status resp.bodyText])) ∧
    (resp.ok = true → resp.body = none →
      streamRun parse resp = (Except.error noBodyMsg, [noBodyMsg, noBodyMsg])) := by
  constructor
  · intro hok
    unfold streamRun streamBody
    rw [hok]
    simp
  · intro hok hbody
    unfold streamRun streamBody
    rw [hok, hbody]
    simp

theorem C10_stream_error_double_callback_witness :
    streamRun (α := List Char) (fun l => some l)
        { ok := false, status := 404, bodyText := "nope", body := none } =
      (Except.error "HTTP 404: nope", ["HTTP 404: nope", "HTTP 404: nope"]) ∧
    streamRun (α := List Char) (fun l => some l)
        { ok := true, status := 200, bodyText := "", body := none } =
      (Except.error noBodyMsg, [noBodyMsg, noBodyMsg]) := by
  have h1 := (C10_stream_error_double_callback (α := List Char) (fun l => some l)
    { ok := false, status := 404, bodyText := "nope", body := none }).1 rfl
  have h2 := (C10_stream_error_double_callback (α := List Char) (fun l => some l)
    { ok := true, status := 200, bodyText := "", body := none }).2 rfl rfl
  exact ⟨by rw [h1]; rfl, h2⟩

theorem C1_sse_segmentation_invariance_witness :
    (runDecoder parseId ["data: \x7b".toList, "\x7d\ndata: [DONE]\n".toList]).chunks =
      ["\x7b\x7d".toList] ∧
    (runDecoder parseId ["data: \x7b".toList, "\x7d\ndata: [DONE]\n".toList]).completions = 1 :=
  C1_sse_segmentation_invariance parseId ["\x7b\x7d".toList] ["\x7b\x7d".toList]
    (List.Forall₂.cons ⟨by decide, by decide, by decide, rfl⟩ List.Forall₂.nil)
    ["data: \x7b".toList, "\x7d\ndata: [DONE]\n".toList] (by decide)

theorem C3_malformed_frame_skipped_witness :
    (runDecoder parseBrace
        [streamWithBad ["\x7b\x7d".toList] "notjson".toList ["\x7b\x7d".toList]]).chunks =
      ["\x7b\x7d".toList, "\x7b\x7d".toList] ∧
    (runDecoder parseBrace
        [streamWithBad ["\x7b\x7d".toList] "notjson".toList ["\x7b\x7d".toList]]).warnings = 1 ∧
    (runDecoder parseBrace
        [streamWithBad ["\x7b\x7d".toList] "notjson".toList ["\x7b\x7d".toList]]).completions = 1 := by
  obtain ⟨h1, h2, h3, h4⟩ := C3_malformed_frame_skipped parseBrace
    ["\x7b\x7d".toList] "notjson".toList ["\x7b\x7d".toList]
    ["\x7b\x7d".toList] ["\x7b\x7d".toList]
    (List.Forall₂.cons ⟨by decide, by decide, by decide, by decide⟩ List.Forall₂.nil)
    ⟨by decide, by decide, by decide, by decide⟩
    (List.Forall₂.cons ⟨by decide, by decide, by decide, by decide⟩ List.Forall₂.nil)
  exact ⟨h1, h2, h3⟩

theorem C4_termination_completion_witness :
    (runDecoder parseId ["data: [DONE]\n".toList]).completions = 1 ∧
    runDecoder parseId (["data: [DONE]\n".toList] ++ ["data: \x7b\x7d\n".toList]) =
      runDecoder parseId ["data: [DONE]\n".toList] := by
  have h := C4_termination_completion parseId ["data: [DONE]\n".toList]
  exact ⟨h.1, h.2 ["data: \x7b\x7d\n".toList] (by decide)⟩

theorem C9_file_messages_witness :
    createFileMessages [{ fileName := "test.py", content := "print" }]
        { maxFileSize := none, allowedExtensions := some ["txt", "py", "js"] } =
      Except.ok [{ role := "file", content := some "print", fileName := some "test.py" }] ∧
    createFileMessages [{ fileName := "large-file.txt", content := largeContent }]
        { maxFileSize := some 50, allowedExtensions := none } =
      Except.error "File large-file.txt exceeds maximum size of 50 bytes" := by
  constructor
  · have h := (C9_file_messages [{ fileName := "test.py", content := "print" }]
      { maxFileSize := none, allowedExtensions := some ["txt", "py", "js"] }).1
    have hres := h (by
      intro f hf
      rw [List.mem_singleton] at hf
      subst hf
      constructor
      · intro hand
        exact absurd hand.2 (by decide)
      · exact Or.inr ⟨["txt", "py", "js"], rfl, by decide, by decide⟩)
    rw [hres]
    rfl
  · have h := (C9_file_messages [{ fileName := "large-file.txt", content := largeContent }]
      { maxFileSize := some 50, allowedExtensions := none }).2.1
    have hres := h [] { fileName := "large-file.txt", content := largeContent } [] rfl
      (by intro g hg; cases hg) (by decide) (by decide)
    rw [hres]
    rfl


end EasyLLM
